import Mathlib

/-!
Verification of the ATLAS fusion-model evaluation and backtesting code.

This file gives a shallow embedding of the numerical core of the repository:

* `calculate_position_size` and the continuous-position backtest arithmetic of
  `fusion_model_backtest.py` (function `backtest`, lines 42-59), over `ℝ`
  (the position sizer uses the real exponential);
* the direction-only `BacktestEngine.backtest` loop of
  `.ipynb_checkpoints/fusion_model_test-checkpoint.py` (lines 217-249), over `ℚ`
  (all of its arithmetic is rational);
* `MetricsCalculator.calculate_prediction_metrics` (lines 36-58),
  `MetricsCalculator.calculate_financial_metrics` (lines 86-112) and
  `MetricsCalculator.calculate_risk_metrics` (lines 115-135) of the same file.

Numpy conventions followed by the embedding:

* `np.mean` of a list is `sum / length`; on the rational side the empty mean
  `0 / 0` evaluates to `0` (numpy would give NaN; every statement below that
  touches a mean is guarded by a non-emptiness hypothesis, so the two agree
  everywhere a theorem looks);
* `np.max` of a zero-size array raises `ValueError`; the embedding
  `npMax` returns `Except.error` there, and `calculate_financial_metrics`
  propagates it exactly as the Python exception propagates;
* `np.percentile` uses the default linear-interpolation method:
  with `s` the ascending sort of the data and `h = (n-1)·p/100`,
  the result is `s[⌊h⌋] + (h - ⌊h⌋)·(s[⌊h⌋+1] - s[⌊h⌋])`;
* `np.clip x lo hi` is `min (max x lo) hi`;
* `np.sign` is `1 / 0 / -1` by the sign of the argument;
* boolean arrays average as 0/1 values (`np.mean(a == b)`).
-/

/-! ## Shared list helpers (numpy vocabulary) -/

/-- `np.mean` over rationals: sum divided by length. -/
def npMeanQ (l : List ℚ) : ℚ := l.sum / l.length

/-- `np.sign` over rationals. -/
def npSignQ (x : ℚ) : ℚ := if 0 < x then 1 else if x < 0 then -1 else 0

/-- `np.diff`: consecutive differences, `diff[i] = l[i+1] - l[i]`. -/
def npDiffQ (l : List ℚ) : List ℚ := List.zipWith (fun b a => b - a) l.tail l

/-- `np.max`: raises `ValueError` on a zero-size array, otherwise the maximum. -/
def npMaxQ : List ℚ → Except String ℚ
  | [] => Except.error "zero-size array to reduction operation maximum which has no identity"
  | x :: xs => Except.ok (xs.foldl max x)

/-- Three-list `zipWith` (numpy elementwise ops over three equal-length arrays). -/
def zipWith3 (f : α → β → γ → δ) : List α → List β → List γ → List δ
  | a :: as, b :: bs, c :: cs => f a b c :: zipWith3 f as bs cs
  | _, _, _ => []

/-! ## `MetricsCalculator.calculate_prediction_metrics`
(checkpoint file, lines 36-58).

The Python function returns a dict with keys MSE, RMSE, MAE, MAPE, R2,
Direction_Accuracy.  RMSE is `np.sqrt(mse)`, irrational in general, and no
other entry depends on it; the embedding records the remaining five entries,
each translated literally. -/

structure PredictionMetrics where
  mse : ℚ
  mae : ℚ
  mape : ℚ
  r2 : ℚ
  directionAccuracy : ℚ

/-- `MetricsCalculator.calculate_prediction_metrics(actual, predicted)`:
`mse = mean((a-p)²)`, `mae = mean(|a-p|)`, `mape = mean(|(a-p)/|a||)·100`,
`r2 = 1 - Σ(a-p)²/Σ(a-mean a)²`, and direction accuracy
`mean(sign(diff a) == sign(diff p))·100`. -/
def MetricsCalculator.calculate_prediction_metrics (actual predicted : List ℚ) :
    PredictionMetrics :=
  let errs := List.zipWith (fun a p => a - p) actual predicted
  let mse := npMeanQ (errs.map (fun e => e ^ 2))
  let mae := npMeanQ (errs.map (fun e => |e|))
  let mape := npMeanQ (List.zipWith (fun a p => abs ((a - p) / abs a)) actual predicted) * 100
  let ssTotal := (actual.map (fun a => (a - npMeanQ actual) ^ 2)).sum
  let ssResidual := (errs.map (fun e => e ^ 2)).sum
  let r2 := 1 - ssResidual / ssTotal
  let dirActual := (npDiffQ actual).map npSignQ
  let dirPred := (npDiffQ predicted).map npSignQ
  let dirAcc := npMeanQ (List.zipWith (fun x y => if x = y then (1 : ℚ) else 0) dirActual dirPred) * 100
  { mse := mse, mae := mae, mape := mape, r2 := r2, directionAccuracy := dirAcc }

/-! ## `MetricsCalculator.calculate_risk_metrics`
(checkpoint file, lines 115-135).

The dict also carries skewness, kurtosis and upside/downside annualized
volatility; those four entries involve real square roots (`std`, `std³`) and
are computed independently of VaR and CVaR, which are the entries the
verified properties are about, so the embedding records VaR and CVaR. -/

/-- `np.percentile` with the default linear interpolation method. -/
def npPercentileQ (l : List ℚ) (p : ℚ) : ℚ :=
  let s := l.mergeSort
  let h : ℚ := ((s.length : ℚ) - 1) * (p / 100)
  let i : ℕ := (⌊h⌋).toNat
  let lo := s.getD i 0
  let hi := s.getD (i + 1) lo
  lo + (h - (i : ℚ)) * (hi - lo)

structure RiskMetrics where
  valueAtRisk : ℚ
  conditionalVaR : ℚ

/-- `MetricsCalculator.calculate_risk_metrics(returns, confidence_level)`:
`var = np.percentile(returns, (1-confidence_level)·100)` and
`cvar = np.mean(returns[returns <= var])`. -/
def MetricsCalculator.calculate_risk_metrics (returns : List ℚ) (confidenceLevel : ℚ) :
    RiskMetrics :=
  let var := npPercentileQ returns ((1 - confidenceLevel) * 100)
  let cvar := npMeanQ (returns.filter (fun r => r ≤ var))
  { valueAtRisk := var, conditionalVaR := cvar }

/-! ## `BacktestEngine.backtest` (checkpoint file, lines 212-259)

The loop state is `(portfolio, position, trades, daily_returns)`; rows are
`(Predicted, Actual)` pairs indexed from 0, and the loop runs over
`i ∈ range(1, len(predictions))`.  The summary dict returned at lines 251-259
consists of aggregations of this state (several via `np.sqrt`); the verified
properties are about the loop state itself. -/

structure TradeRecord where
  date : ℕ
  signal : ℕ
  portfolio : ℚ
  returns : ℚ

structure BTState where
  portfolio : ℚ
  position : ℕ
  trades : List TradeRecord
  dailyReturns : List ℚ

/-- One iteration of the `BacktestEngine.backtest` loop body, at row index `i`
with previous row `(pPrev, aPrev)` and current row `(pCur, aCur)`. -/
def btStep (cost : ℚ) (i : ℕ) (pPrev aPrev pCur aCur : ℚ) (st : BTState) : BTState :=
  let signal : ℕ := if pPrev < pCur then 1 else 0
  let priceChange := aCur - aPrev
  let pf1 := if st.position ≠ signal then st.portfolio - st.portfolio * cost else st.portfolio
  let pos1 := if st.position ≠ signal then signal else st.position
  let ret := if pos1 ≠ 0 then priceChange / aPrev else 0
  let pf2 := if pos1 ≠ 0 then pf1 + pf1 * ret else pf1
  { portfolio := pf2
    position := pos1
    trades := st.trades ++ [{ date := i, signal := signal, portfolio := pf2, returns := ret }]
    dailyReturns := st.dailyReturns ++ [ret] }

/-- The `for i in range(1, len(predictions))` loop: `prev` is row `i-1`,
the head of the remaining list is row `i`. -/
def btLoop (cost : ℚ) : ℕ → ℚ × ℚ → List (ℚ × ℚ) → BTState → BTState
  | _, _, [], st => st
  | i, prev, cur :: rest, st =>
      btLoop cost (i + 1) cur rest (btStep cost i prev.1 prev.2 cur.1 cur.2 st)

/-- `BacktestEngine.backtest(predictions, transaction_cost)` with
`initial_capital` from the constructor: start flat with the initial capital
and run the loop from row 1. -/
def BacktestEngine.backtest (initialCapital : ℚ) (predictions : List (ℚ × ℚ))
    (transactionCost : ℚ) : BTState :=
  let st0 : BTState := { portfolio := initialCapital, position := 0, trades := [], dailyReturns := [] }
  match predictions with
  | [] => st0
  | row0 :: rest => btLoop transactionCost 1 row0 rest st0

/-! ## Continuous-position backtest (`fusion_model_backtest.py`)

`calculate_position_size` (lines 12-15) and the return/cost arithmetic of
`backtest` (lines 42-59).  The dataframe columns become lists indexed by row;
`position.shift(1)` with the first row overwritten by `position.iloc[0]`
becomes `position_changes`. -/

/-- `np.clip(x, lo, hi)`. -/
noncomputable def npClip (x lo hi : ℝ) : ℝ := min (max x lo) hi

/-- `calculate_position_size(predicted_return, max_position)`
(`fusion_model_backtest.py` lines 12-15):
`np.clip(2·m·(1/(1+exp(-r)) - 0.5), -m, m)`. -/
noncomputable def calculate_position_size (predictedReturn maxPosition : ℝ) : ℝ :=
  let position := 2 * maxPosition * (1 / (1 + Real.exp (-predictedReturn)) - 0.5)
  npClip position (-maxPosition) maxPosition

/-- The `position` column (line 42): the sizer applied to each `Predicted`. -/
noncomputable def backtest_positions (predicted : List ℝ) (maxPosition : ℝ) : List ℝ :=
  predicted.map (fun r => calculate_position_size r maxPosition)

/-- The `position_change` column (lines 46-47): `position - position.shift(1)`
with the first entry overwritten by `position.iloc[0]`. -/
def position_changes : List ℝ → List ℝ
  | [] => []
  | p0 :: rest => p0 :: List.zipWith (fun cur prev => cur - prev) rest (p0 :: rest)

/-- The `transaction_cost` column (line 48): `|position_change| · c`. -/
def transaction_costs (changes : List ℝ) (c : ℝ) : List ℝ :=
  changes.map (fun d => |d| * c)

/-- The `daily_return` column (line 55):
`position * Actual / 100.0 - transaction_cost`. -/
noncomputable def backtest_daily_returns (predicted actual : List ℝ) (c m : ℝ) : List ℝ :=
  let ps := backtest_positions predicted m
  zipWith3 (fun p a t => p * a / 100 - t) ps actual
    (transaction_costs (position_changes ps) c)

/-- `np.cumprod`. -/
def npCumprod : List ℝ → List ℝ
  | [] => []
  | x :: xs => x :: (npCumprod xs).map (fun y => x * y)

/-- The `cumulative_return` column (line 56), in fraction (not percent) form:
`(1 + daily_return).cumprod() - 1`; the dataframe stores this times 100. -/
noncomputable def backtest_cumulative_returns (predicted actual : List ℝ) (c m : ℝ) : List ℝ :=
  (npCumprod ((backtest_daily_returns predicted actual c m).map (fun d => 1 + d))).map
    (fun x => x - 1)

/-- Final cumulative return of the run (the value behind
`cumulative_return.iloc[-1]`, fraction form): `∏(1 + daily_return) - 1`. -/
noncomputable def backtest_cumulative_final (predicted actual : List ℝ) (c m : ℝ) : ℝ :=
  ((backtest_daily_returns predicted actual c m).map (fun d => 1 + d)).prod - 1

/-! ## `MetricsCalculator.calculate_financial_metrics`
(checkpoint file, lines 86-112), over `ℝ` so that `np.std`'s square root is
available.  `np.max` on the empty `drawdowns` array raises, and the raise
happens before the sortino/calmar lines run, exactly as in the `do` block. -/

/-- `np.mean` over reals. -/
noncomputable def npMean (l : List ℝ) : ℝ := l.sum / l.length

/-- `np.std` (population standard deviation). -/
noncomputable def npStd (l : List ℝ) : ℝ :=
  Real.sqrt (npMean (l.map (fun x => (x - npMean l) ^ 2)))

/-- `np.max` over reals: `ValueError` on a zero-size array. -/
def npMaxR : List ℝ → Except String ℝ
  | [] => Except.error "zero-size array to reduction operation maximum which has no identity"
  | x :: xs => Except.ok (xs.foldl max x)

/-- `np.maximum.accumulate`: running maxima. -/
def npMaximumAccumulate : List ℝ → List ℝ
  | [] => []
  | x :: xs => x :: (npMaximumAccumulate xs).map (fun y => max x y)

structure FinancialMetrics where
  annualReturn : ℝ
  annualVolatility : ℝ
  sharpe : ℝ
  sortino : ℝ
  maxDrawdown : ℝ
  calmar : ℝ

/-- `MetricsCalculator.calculate_financial_metrics(returns, risk_free_rate)`
(checkpoint file, lines 86-112).  Field names follow the dict keys
Annual_Return, Annual_Volatility, Sharpe_Ratio, Sortino_Ratio, Max_Drawdown,
Calmar_Ratio.  `np.max(drawdowns)` raises `ValueError` on a zero-size array,
so an empty return series makes the whole call raise. -/
noncomputable def MetricsCalculator.calculate_financial_metrics (returns : List ℝ)
    (riskFreeRate : ℝ) : Except String FinancialMetrics :=
  let annualReturn := npMean returns * 252
  let annualVolatility := npStd returns * Real.sqrt 252
  let excessReturns := returns.map (fun r => r - riskFreeRate / 252)
  let sharpe := npMean excessReturns / (npStd excessReturns + 1e-6) * Real.sqrt 252
  let cumulativeReturns := npCumprod (returns.map (fun r => 1 + r))
  let rollingMax := npMaximumAccumulate cumulativeReturns
  let drawdowns := List.zipWith (fun m c => (m - c) / m) rollingMax cumulativeReturns
  match npMaxR drawdowns with
  | Except.error e => Except.error e
  | Except.ok maxDrawdown =>
      let downsideReturns := returns.map (fun r => if r < 0 then r else 0)
      let downsideStd := npStd downsideReturns * Real.sqrt 252
      let sortino := annualReturn / (downsideStd + 1e-6)
      let calmar := annualReturn / (maxDrawdown + 1e-6)
      Except.ok { annualReturn := annualReturn, annualVolatility := annualVolatility,
                  sharpe := sharpe, sortino := sortino,
                  maxDrawdown := maxDrawdown, calmar := calmar }

/-! ## Theorems -/

/-- C8: calling the financial-metrics function on an empty return series
raises an error (numpy's `ValueError` from `np.max` over the empty
`drawdowns` array) instead of silently returning NaN metrics: metrics are
only ever returned for non-empty input arrays. -/
theorem C8_financial_metrics_empty_raises (riskFreeRate : ℝ) :
    MetricsCalculator.calculate_financial_metrics [] riskFreeRate =
      Except.error "zero-size array to reduction operation maximum which has no identity" :=
  rfl

/-- C3: for every predicted return `r` and maximum position `m > 0`, the
Position Sizer returns exactly `2m·(σ(r) − 0.5)` clamped to `[−m, m]` with
`σ(r) = 1/(1+e^{−r})`; its output lies in `[−m, m]`, and at `r = 0` it is
exactly `0`. -/
theorem C3_position_sizer_formula (r m : ℝ) (hm : 0 < m) :
    calculate_position_size r m =
        npClip (2 * m * (1 / (1 + Real.exp (-r)) - 0.5)) (-m) m ∧
      -m ≤ calculate_position_size r m ∧ calculate_position_size r m ≤ m ∧
      calculate_position_size 0 m = 0 := by
  refine ⟨rfl, ?_, ?_, ?_⟩
  · exact le_min (le_max_right _ _) (by linarith)
  · exact min_le_right _ _
  · unfold calculate_position_size npClip
    rw [neg_zero, Real.exp_zero]
    norm_num
    rw [max_eq_left (by linarith : -m ≤ 0), min_eq_left hm.le]

/-- Witness for C3 at `r = 0`, `m = 1`. -/
theorem C3_position_sizer_formula_witness :
    (0:ℝ) < 1 ∧
      (calculate_position_size 0 1 =
          npClip (2 * 1 * (1 / (1 + Real.exp (-0)) - 0.5)) (-1) 1 ∧
        -1 ≤ calculate_position_size 0 1 ∧ calculate_position_size 0 1 ≤ 1 ∧
        calculate_position_size 0 1 = 0) :=
  ⟨by norm_num, C3_position_sizer_formula 0 1 (by norm_num)⟩

/-- C7: for fixed `m > 0` the Position Sizer is monotonically non-decreasing
in the predicted return. -/
theorem C7_position_sizer_monotone (m r1 r2 : ℝ) (hm : 0 < m) (h : r1 ≤ r2) :
    calculate_position_size r1 m ≤ calculate_position_size r2 m := by
  unfold calculate_position_size npClip
  have h1 : (0:ℝ) < 1 + Real.exp (-r1) := by positivity
  have h2 : (0:ℝ) < 1 + Real.exp (-r2) := by positivity
  have he : Real.exp (-r2) ≤ Real.exp (-r1) := Real.exp_le_exp.2 (neg_le_neg h)
  have hs : 1 / (1 + Real.exp (-r1)) ≤ 1 / (1 + Real.exp (-r2)) :=
    one_div_le_one_div_of_le h2 (by linarith)
  have hmul : 2 * m * (1 / (1 + Real.exp (-r1)) - 0.5) ≤
      2 * m * (1 / (1 + Real.exp (-r2)) - 0.5) :=
    mul_le_mul_of_nonneg_left (by linarith) (by linarith)
  exact min_le_min (max_le_max hmul le_rfl) le_rfl

/-- Witness for C7 at `m = 1`, `r1 = 0`, `r2 = 1`. -/
theorem C7_position_sizer_monotone_witness :
    (0:ℝ) < 1 ∧ (0:ℝ) ≤ 1 ∧
      calculate_position_size 0 1 ≤ calculate_position_size 1 1 :=
  ⟨by norm_num, by norm_num, C7_position_sizer_monotone 1 0 1 (by norm_num) (by norm_num)⟩

/-- Characterization of one `BacktestEngine.backtest` loop iteration: the
position always ends at the signal, the recorded return is the price return
when the signal is 1 and `0` otherwise, and the portfolio picks up the flip
cost and then the return. -/
theorem btStep_characterization (cost : ℚ) (i : ℕ) (pPrev aPrev pCur aCur : ℚ)
    (st : BTState) :
    (btStep cost i pPrev aPrev pCur aCur st).position =
        (if pPrev < pCur then 1 else 0) ∧
      (btStep cost i pPrev aPrev pCur aCur st).dailyReturns =
        st.dailyReturns ++ [if pPrev < pCur then (aCur - aPrev) / aPrev else 0] ∧
      (btStep cost i pPrev aPrev pCur aCur st).portfolio =
        (if st.position ≠ (if pPrev < pCur then 1 else 0) then
            st.portfolio - st.portfolio * cost
          else st.portfolio) *
          (if pPrev < pCur then 1 + (aCur - aPrev) / aPrev else 1) := by
  refine ⟨?_, ?_, ?_⟩ <;>
    · unfold btStep
      by_cases hd : pPrev < pCur <;> by_cases hp1 : st.position = 1 <;>
        by_cases hp0 : st.position = 0 <;> simp [hd, hp1, hp0] <;> ring

/-- C2: one step of the direction-only backtest loop.  The loop consumes the
row sequence pairwise (first conjunct), and at each step: the held position
becomes the signal `1` iff `predicted` strictly increased; whenever the held
position differed from the signal the capital is first reduced once by
`capital · cost`; with the signal at `1` the (post-cost) capital then changes
by `capital · (aCur − aPrev)/aPrev` and that return is recorded; with the
signal at `0` the recorded return is exactly `0` and the capital sees only
the flip cost. -/
theorem C2_direction_step (cost : ℚ) (i : ℕ) (pPrev aPrev pCur aCur : ℚ)
    (st : BTState) (rest : List (ℚ × ℚ)) :
    btLoop cost i (pPrev, aPrev) ((pCur, aCur) :: rest) st =
        btLoop cost (i + 1) (pCur, aCur) rest (btStep cost i pPrev aPrev pCur aCur st) ∧
      (btStep cost i pPrev aPrev pCur aCur st).position =
        (if pPrev < pCur then 1 else 0) ∧
      (btStep cost i pPrev aPrev pCur aCur st).dailyReturns =
        st.dailyReturns ++ [if pPrev < pCur then (aCur - aPrev) / aPrev else 0] ∧
      (btStep cost i pPrev aPrev pCur aCur st).portfolio =
        (if st.position ≠ (if pPrev < pCur then 1 else 0) then
            st.portfolio - st.portfolio * cost
          else st.portfolio) *
          (if pPrev < pCur then 1 + (aCur - aPrev) / aPrev else 1) :=
  ⟨rfl, btStep_characterization cost i pPrev aPrev pCur aCur st⟩

/-- Helper for C9: each loop iteration appends exactly one trade record. -/
theorem btLoop_trades_length (cost : ℚ) :
    ∀ (rest : List (ℚ × ℚ)) (i : ℕ) (prev : ℚ × ℚ) (st : BTState),
      (btLoop cost i prev rest st).trades.length = st.trades.length + rest.length := by
  intro rest
  induction rest with
  | nil => intro i prev st; rfl
  | cons cur rest ih =>
      intro i prev st
      rw [btLoop, ih]
      simp [btStep]
      omega

/-- C9 counterexample: on an input of 2 rows the direction-only backtest
produces 1 trade record, not 2 — the loop starts at row 1, so the first row
never yields a record. -/
theorem C9_counterexample :
    (BacktestEngine.backtest 1000000 [(1, 1), (2, 2)] (1/1000)).trades.length ≠
      [((1:ℚ), (1:ℚ)), ((2:ℚ), (2:ℚ))].length := by
  decide

/-- C9 amended: for an input of `n` rows the direction-only backtest appends
exactly one trade record per time step after the first, i.e. it produces
exactly `n - 1` trade records (`0` for an empty input). -/
theorem C9_trades_count (initialCapital : ℚ) (predictions : List (ℚ × ℚ))
    (transactionCost : ℚ) :
    (BacktestEngine.backtest initialCapital predictions transactionCost).trades.length =
      predictions.length - 1 := by
  unfold BacktestEngine.backtest
  match predictions with
  | [] => rfl
  | row0 :: rest => rw [btLoop_trades_length]; simp

/-- Helper for C5: the loop preserves non-negativity of the portfolio and of
every logged portfolio value, as long as the actual prices are positive and
the proportional cost rate is in `[0, 1)`. -/
theorem btLoop_portfolio_nonneg (cost : ℚ) (hc0 : 0 ≤ cost) (hc1 : cost < 1) :
    ∀ (rest : List (ℚ × ℚ)) (i : ℕ) (prev : ℚ × ℚ) (st : BTState),
      0 < prev.2 → (∀ r ∈ rest, 0 < r.2) → 0 ≤ st.portfolio →
      (∀ t ∈ st.trades, 0 ≤ t.portfolio) →
      0 ≤ (btLoop cost i prev rest st).portfolio ∧
        ∀ t ∈ (btLoop cost i prev rest st).trades, 0 ≤ t.portfolio := by
  intro rest
  induction rest with
  | nil => intro i prev st _ _ hpf htr; exact ⟨hpf, htr⟩
  | cons cur rest ih =>
      intro i prev st hprev hrest hpf htr
      have hcur : 0 < cur.2 := hrest cur (List.mem_cons_self _ _)
      have hpf1 : 0 ≤ (if st.position ≠ (if prev.1 < cur.1 then 1 else 0) then
          st.portfolio - st.portfolio * cost else st.portfolio) := by
        by_cases hps : st.position = (if prev.1 < cur.1 then 1 else 0)
        · rw [if_neg (not_not_intro hps)]
          exact hpf
        · rw [if_pos hps]
          have hmul : st.portfolio * cost ≤ st.portfolio * 1 :=
            mul_le_mul_of_nonneg_left hc1.le hpf
          linarith
      have hpf2 : 0 ≤ (btStep cost i prev.1 prev.2 cur.1 cur.2 st).portfolio := by
        have hchar := (btStep_characterization cost i prev.1 prev.2 cur.1 cur.2 st).2.2
        rw [hchar]
        refine mul_nonneg hpf1 ?_
        by_cases hd : prev.1 < cur.1
        · rw [if_pos hd]
          have heq : 1 + (cur.2 - prev.2) / prev.2 = cur.2 / prev.2 := by
            field_simp
          rw [heq]
          positivity
        · rw [if_neg hd]
          norm_num
      rw [btLoop]
      refine ih (i + 1) cur (btStep cost i prev.1 prev.2 cur.1 cur.2 st) hcur
        (fun r hr => hrest r (List.mem_cons_of_mem _ hr)) hpf2 ?_
      intro t ht
      unfold btStep at ht
      simp only [List.mem_append, List.mem_singleton] at ht
      rcases ht with ht | ht
      · exact htr t ht
      · rw [ht]
        exact hpf2

/-- C5: in the direction-only backtest, with strictly positive actual prices,
positive initial capital and a proportional cost rate in `[0, 1)`, the
portfolio value stays non-negative after every step (final value and every
logged trade-record value). -/
theorem C5_portfolio_nonneg (initialCapital : ℚ) (predictions : List (ℚ × ℚ))
    (cost : ℚ) (hC : 0 < initialCapital) (hc0 : 0 ≤ cost) (hc1 : cost < 1)
    (hpos : ∀ r ∈ predictions, 0 < r.2) :
    0 ≤ (BacktestEngine.backtest initialCapital predictions cost).portfolio ∧
      ∀ t ∈ (BacktestEngine.backtest initialCapital predictions cost).trades,
        0 ≤ t.portfolio := by
  unfold BacktestEngine.backtest
  match predictions, hpos with
  | [], _ => exact ⟨hC.le, by intro t ht; simp at ht⟩
  | row0 :: rest, hpos =>
      exact btLoop_portfolio_nonneg cost hc0 hc1 rest 1 row0 _
        (hpos row0 (List.mem_cons_self _ _))
        (fun r hr => hpos r (List.mem_cons_of_mem _ hr)) hC.le
        (by intro t ht; simp at ht)

/-- Witness for C5 on the two-row input `[(1,1),(2,2)]` with capital 1 and
cost 1/100. -/
theorem C5_portfolio_nonneg_witness :
    (0:ℚ) < 1 ∧ (0:ℚ) ≤ 1/100 ∧ (1:ℚ)/100 < 1 ∧
      (∀ r ∈ [((1:ℚ), (1:ℚ)), ((2:ℚ), (2:ℚ))], 0 < r.2) ∧
      (0 ≤ (BacktestEngine.backtest 1 [(1, 1), (2, 2)] (1/100)).portfolio ∧
        ∀ t ∈ (BacktestEngine.backtest 1 [(1, 1), (2, 2)] (1/100)).trades,
          0 ≤ t.portfolio) :=
  ⟨by norm_num, by norm_num, by norm_num, by decide,
    C5_portfolio_nonneg 1 [(1, 1), (2, 2)] (1/100) (by norm_num) (by norm_num)
      (by norm_num) (by decide)⟩

/-- Zipping a list with itself is mapping the diagonal. -/
theorem zipWith_self_eq_map (f : α → α → β) :
    ∀ l : List α, List.zipWith f l l = l.map fun x => f x x := by
  intro l
  induction l with
  | nil => rfl
  | cons x xs ih => simp [ih]

/-- A constant-one map sums to the length. -/
theorem sum_map_one_eq_length (l : List α) :
    (l.map fun _ => (1:ℚ)).sum = l.length := by
  induction l with
  | nil => rfl
  | cons x xs ih => simp [ih]; ring

/-- C6: on a perfect predictor (`predicted` equal to `actual` element-wise)
with at least two points, no zero actual value and non-zero variance, the
prediction-metrics calculator returns R² exactly 1, MAPE exactly 0 and
direction accuracy exactly 100. -/
theorem C6_perfect_predictor_metrics (a : List ℚ) (h2 : 2 ≤ a.length)
    (hnz : ∀ x ∈ a, x ≠ 0) (hvar : ∃ x ∈ a, ∃ y ∈ a, x ≠ y) :
    (MetricsCalculator.calculate_prediction_metrics a a).r2 = 1 ∧
      (MetricsCalculator.calculate_prediction_metrics a a).mape = 0 ∧
      (MetricsCalculator.calculate_prediction_metrics a a).directionAccuracy = 100 := by
  refine ⟨?_, ?_, ?_⟩
  · -- R²: the residual sum of squares vanishes
    have h0 : ((List.zipWith (fun x y => x - y) a a).map fun e => e ^ 2).sum = 0 := by
      apply List.sum_eq_zero
      intro e he
      rw [zipWith_self_eq_map, List.map_map] at he
      obtain ⟨x, _, rfl⟩ := List.mem_map.1 he
      simp
    simp only [MetricsCalculator.calculate_prediction_metrics]
    rw [h0, zero_div, sub_zero]
  · -- MAPE: every relative error is zero
    have h0 : (List.zipWith (fun x y => abs ((x - y) / abs x)) a a).sum = 0 := by
      apply List.sum_eq_zero
      intro e he
      rw [zipWith_self_eq_map] at he
      obtain ⟨x, _, rfl⟩ := List.mem_map.1 he
      simp
    simp only [MetricsCalculator.calculate_prediction_metrics, npMeanQ]
    rw [h0, zero_div, zero_mul]
  · -- direction accuracy: both sign lists are literally the same list
    have hlen : (npDiffQ a).length = a.length - 1 := by
      simp only [npDiffQ, List.length_zipWith, List.length_tail]
      omega
    have hsame : (List.zipWith (fun x y => if x = y then (1:ℚ) else 0)
        ((npDiffQ a).map npSignQ) ((npDiffQ a).map npSignQ)) =
        ((npDiffQ a).map npSignQ).map fun _ => (1:ℚ) := by
      rw [zipWith_self_eq_map]
      simp
    simp only [MetricsCalculator.calculate_prediction_metrics, npMeanQ]
    rw [hsame, sum_map_one_eq_length]
    simp only [List.length_map]
    have hpos : (0:ℚ) < ((npDiffQ a).length : ℚ) := by
      have : 1 ≤ (npDiffQ a).length := by omega
      exact_mod_cast Nat.lt_of_lt_of_le Nat.zero_lt_one this
    rw [div_self hpos.ne']
    norm_num

/-- Witness for C6 on `a = [1, 2]`. -/
theorem C6_perfect_predictor_metrics_witness :
    2 ≤ ([(1:ℚ), 2]).length ∧ (∀ x ∈ [(1:ℚ), 2], x ≠ 0) ∧
      (∃ x ∈ [(1:ℚ), 2], ∃ y ∈ [(1:ℚ), 2], x ≠ y) ∧
      ((MetricsCalculator.calculate_prediction_metrics [1, 2] [1, 2]).r2 = 1 ∧
        (MetricsCalculator.calculate_prediction_metrics [1, 2] [1, 2]).mape = 0 ∧
        (MetricsCalculator.calculate_prediction_metrics [1, 2] [1, 2]).directionAccuracy = 100) :=
  ⟨by decide, by decide, by decide,
    C6_perfect_predictor_metrics [1, 2] (by decide) (by decide) (by decide)⟩

/-- `getD` through `List.map` at an in-range index. -/
theorem getD_map_real (f : ℝ → ℝ) :
    ∀ (l : List ℝ) (i : ℕ), i < l.length → (l.map f).getD i 0 = f (l.getD i 0) := by
  intro l
  induction l with
  | nil => intro i hi; simp at hi
  | cons x xs ih =>
      intro i hi
      cases i with
      | zero => rfl
      | succ j => exact ih j (by simpa using hi)

/-- `getD` through a two-list `zipWith` at an in-range index. -/
theorem getD_zipWith_real (f : ℝ → ℝ → ℝ) :
    ∀ (l1 l2 : List ℝ) (i : ℕ), i < l1.length → i < l2.length →
      (List.zipWith f l1 l2).getD i 0 = f (l1.getD i 0) (l2.getD i 0) := by
  intro l1
  induction l1 with
  | nil => intro l2 i hi; simp at hi
  | cons x xs ih =>
      intro l2 i h1 h2
      cases l2 with
      | nil => simp at h2
      | cons y ys =>
          cases i with
          | zero => rfl
          | succ j => exact ih ys j (by simpa using h1) (by simpa using h2)

/-- `getD` through `zipWith3` at an in-range index. -/
theorem getD_zipWith3_real (f : ℝ → ℝ → ℝ → ℝ) :
    ∀ (l1 l2 l3 : List ℝ) (i : ℕ), i < l1.length → i < l2.length → i < l3.length →
      (zipWith3 f l1 l2 l3).getD i 0 =
        f (l1.getD i 0) (l2.getD i 0) (l3.getD i 0) := by
  intro l1
  induction l1 with
  | nil => intro l2 l3 i hi; simp at hi
  | cons x xs ih =>
      intro l2 l3 i h1 h2 h3
      cases l2 with
      | nil => simp at h2
      | cons y ys =>
          cases l3 with
          | nil => simp at h3
          | cons z zs =>
              cases i with
              | zero => rfl
              | succ j =>
                  exact ih ys zs j (by simpa using h1) (by simpa using h2) (by simpa using h3)

/-- The `position_change` column has one entry per row. -/
theorem length_position_changes (ps : List ℝ) :
    (position_changes ps).length = ps.length := by
  cases ps with
  | nil => rfl
  | cons p0 rest =>
      simp only [position_changes, List.length_cons, List.length_zipWith]
      omega

/-- Entry `i` of the `position_change` column: `p_i - p_{i-1}`, with the
first entry overwritten to `p_0` (prior position `0`). -/
theorem getD_position_changes (ps : List ℝ) (i : ℕ) (hi : i < ps.length) :
    (position_changes ps).getD i 0 =
      ps.getD i 0 - (if i = 0 then 0 else ps.getD (i - 1) 0) := by
  match ps with
  | p0 :: rest =>
    cases i with
    | zero => simp [position_changes]
    | succ j =>
        have hj : j < rest.length := by simpa using hi
        simp only [position_changes, List.getD_cons_succ]
        rw [getD_zipWith_real _ rest (p0 :: rest) j hj (by simp; omega)]
        simp

/-- C1: in the continuous-position backtest, the net return recorded at each
step `i` is `p_i · (actual_i / 100) − |p_i − p_{i−1}| · c`, where `p_i` is
the Position Sizer output on `predicted_i` and the prior position before the
first step is `0` (so step 0 is charged cost on its full entering position). -/
theorem C1_continuous_daily_return (predicted actual : List ℝ) (c m : ℝ) (i : ℕ)
    (hlen : predicted.length = actual.length) (hi : i < predicted.length) :
    (backtest_daily_returns predicted actual c m).getD i 0 =
      calculate_position_size (predicted.getD i 0) m * (actual.getD i 0 / 100) -
        |calculate_position_size (predicted.getD i 0) m -
            (if i = 0 then 0
              else calculate_position_size (predicted.getD (i - 1) 0) m)| * c := by
  have hps : (backtest_positions predicted m).length = predicted.length := by
    simp [backtest_positions]
  have hchanges : (position_changes (backtest_positions predicted m)).length =
      predicted.length := by
    rw [length_position_changes, hps]
  simp only [backtest_daily_returns, transaction_costs]
  rw [getD_zipWith3_real _ _ _ _ i (by rw [hps]; exact hi) (by rw [← hlen]; exact hi)
      (by rw [List.length_map, hchanges]; exact hi)]
  rw [getD_map_real _ _ i (by rw [hchanges]; exact hi)]
  rw [getD_position_changes _ i (by rw [hps]; exact hi)]
  simp only [backtest_positions]
  rw [getD_map_real _ _ i hi]
  cases i with
  | zero => simp [mul_div_assoc]
  | succ j =>
      rw [if_neg (Nat.succ_ne_zero j), if_neg (Nat.succ_ne_zero j)]
      simp only [Nat.add_sub_cancel]
      rw [getD_map_real _ _ j (by omega)]
      rw [mul_div_assoc]

/-- Witness for C1 on `predicted = [0, 0]`, `actual = [1, 2]`, `c = 1`,
`m = 1`, at step `i = 1`. -/
theorem C1_continuous_daily_return_witness :
    ([(0:ℝ), 0]).length = ([(1:ℝ), 2]).length ∧ 1 < ([(0:ℝ), 0]).length ∧
      (backtest_daily_returns [0, 0] [1, 2] 1 1).getD 1 0 =
        calculate_position_size (([(0:ℝ), 0]).getD 1 0) 1 * (([(1:ℝ), 2]).getD 1 0 / 100) -
          |calculate_position_size (([(0:ℝ), 0]).getD 1 0) 1 -
              (if (1:ℕ) = 0 then 0
                else calculate_position_size (([(0:ℝ), 0]).getD (1 - 1) 0) 1)| * 1 :=
  ⟨rfl, by norm_num,
    C1_continuous_daily_return [0, 0] [1, 2] 1 1 1 rfl (by norm_num)⟩

/-- C4 counterexample: with `c = 0`, `m = 1` and `predicted = actual = [100]`,
the continuous backtest's cumulative return is the sized position
`2σ(100) − 1 ≤ 1`, not `∏(1 + r_i) − 1 = 100`: the backtest sizes the
position through the sigmoid and divides the actual value by 100, so it does
not reproduce the raw compounded return of the series. -/
theorem C4_counterexample :
    backtest_cumulative_final [100] [100] 0 1 ≠
      (([(100:ℝ)]).map (fun r => 1 + r)).prod - 1 := by
  have hclip : calculate_position_size 100 1 ≤ 1 := by
    unfold calculate_position_size npClip
    exact min_le_right _ _
  have hle : backtest_cumulative_final [100] [100] 0 1 ≤ 1 := by
    simp only [backtest_cumulative_final, backtest_daily_returns, backtest_positions,
      position_changes, transaction_costs, List.map, zipWith3, List.zipWith,
      List.prod_cons, List.prod_nil]
    norm_num
    linarith
  have hrhs : (([(100:ℝ)]).map (fun r => 1 + r)).prod - 1 = 100 := by norm_num
  intro heq
  rw [hrhs] at heq
  linarith

/-- With every entry of the cost column equal to zero, the three-column
daily-return zip collapses to the costless two-column form. -/
theorem zipWith3_sub_zero_costs :
    ∀ (ps as cs : List ℝ), cs.length = ps.length → (∀ t ∈ cs, t = 0) →
      zipWith3 (fun p a t => p * a / 100 - t) ps as cs =
        List.zipWith (fun p a => p * a / 100) ps as := by
  intro ps
  induction ps with
  | nil => intro as cs _ _; simp [zipWith3]
  | cons p ps ih =>
      intro as cs hlen h0
      cases cs with
      | nil => simp at hlen
      | cons c cs =>
          cases as with
          | nil => simp [zipWith3]
          | cons a as =>
              simp only [zipWith3, List.zipWith]
              rw [h0 c (List.mem_cons_self _ _), sub_zero,
                ih as cs (by simpa using hlen)
                  (fun t ht => h0 t (List.mem_cons_of_mem _ ht))]

/-- Zipping a mapped list against the original is a single map. -/
theorem zipWith_map_self (f : ℝ → ℝ → ℝ) (g : ℝ → ℝ) :
    ∀ l : List ℝ, List.zipWith f (l.map g) l = l.map fun x => f (g x) x := by
  intro l
  induction l with
  | nil => rfl
  | cons x xs ih => simp [ih]

/-- At zero transaction cost the daily-return column is just
`position · actual / 100`. -/
theorem daily_returns_zero_cost (r : List ℝ) (m : ℝ) :
    backtest_daily_returns r r 0 m =
      r.map fun x => calculate_position_size x m * x / 100 := by
  simp only [backtest_daily_returns, backtest_positions]
  rw [zipWith3_sub_zero_costs _ _ _
      (by simp [transaction_costs, length_position_changes])
      (by intro t ht
          simp only [transaction_costs, List.mem_map] at ht
          obtain ⟨d, _, rfl⟩ := ht
          exact mul_zero _)]
  exact zipWith_map_self _ _ r

/-- C4 amended: with `c = 0`, `m = 1` and predictions equal to the return
series itself, the continuous backtest's cumulative return equals
`∏(1 + s(r_i)·r_i/100) − 1`, where `s` is the Position Sizer — the sized,
percent-scaled compounding, not `∏(1 + r_i) − 1`. -/
theorem C4_zero_cost_cumulative (r : List ℝ) :
    backtest_cumulative_final r r 0 1 =
      (r.map fun x => 1 + calculate_position_size x 1 * x / 100).prod - 1 := by
  simp only [backtest_cumulative_final]
  rw [daily_returns_zero_cost, List.map_map]
  rfl

/-- In a sorted list, the linear interpolation of entry `i` toward entry
`i+1` with a non-negative coefficient never drops below entry `i`. -/
theorem getD_le_interp (s : List ℚ) (hsorted : s.Sorted (· ≤ ·)) (i : ℕ) (f : ℚ)
    (hf : 0 ≤ f) (hi : i < s.length) :
    s.getD i 0 ≤ s.getD i 0 + f * (s.getD (i + 1) (s.getD i 0) - s.getD i 0) := by
  have hle : s.getD i 0 ≤ s.getD (i + 1) (s.getD i 0) := by
    by_cases hlt : i + 1 < s.length
    · rw [List.getD_eq_get _ _ hi, List.getD_eq_get _ _ hlt]
      exact hsorted.rel_get_of_lt (Fin.mk_lt_mk.2 (Nat.lt_succ_self i))
    · rw [List.getD_eq_default s (s.getD i 0) (show s.length ≤ i + 1 by omega)]
  have hnn : 0 ≤ f * (s.getD (i + 1) (s.getD i 0) - s.getD i 0) :=
    mul_nonneg hf (sub_nonneg.2 hle)
  linarith

/-- The numpy linear-interpolation percentile of a non-empty list at a
percentage strictly between 0 and 100 is at least some element of the list
(namely the sorted entry it interpolates from). -/
theorem exists_le_npPercentileQ (l : List ℚ) (p : ℚ) (hl : l ≠ [])
    (hp0 : 0 < p) (hp1 : p < 100) :
    ∃ x ∈ l, x ≤ npPercentileQ l p := by
  have hperm : List.Perm (l.mergeSort) l := List.mergeSort_perm l _
  have hsorted : List.Sorted (· ≤ ·) (l.mergeSort) := List.sorted_mergeSort' l
  have hlen : (l.mergeSort).length = l.length := hperm.length_eq
  have hn : 0 < l.length := List.length_pos.2 hl
  set X : ℚ := (((l.mergeSort).length : ℚ) - 1) * (p / 100) with hX
  have hone : (1:ℚ) ≤ (l.mergeSort).length := by
    rw [hlen]; exact_mod_cast hn
  have hq0 : 0 ≤ X := by
    apply mul_nonneg
    · linarith
    · positivity
  have hqlt : X < (l.mergeSort).length := by
    have hdiv : (p / 100 : ℚ) < 1 := by linarith
    have hstep : X ≤ (((l.mergeSort).length : ℚ) - 1) * 1 :=
      mul_le_mul_of_nonneg_left hdiv.le (by linarith)
    linarith
  have hfl0 : (0:ℤ) ≤ ⌊X⌋ := Int.floor_nonneg.2 hq0
  have hflt : ⌊X⌋ < ((l.mergeSort).length : ℤ) := by
    apply Int.floor_lt.2
    push_cast
    exact hqlt
  have hilt : (⌊X⌋).toNat < (l.mergeSort).length := by omega
  refine ⟨(l.mergeSort).getD (⌊X⌋).toNat 0, ?_, ?_⟩
  · apply hperm.subset
    rw [List.getD_eq_get _ _ hilt]
    exact List.get_mem _ _ _
  · have hfr : 0 ≤ X - (((⌊X⌋).toNat : ℕ) : ℚ) := by
      have hcast : ((((⌊X⌋).toNat : ℕ)) : ℚ) = ((⌊X⌋ : ℤ) : ℚ) := by
        exact_mod_cast congrArg (fun z : ℤ => (z : ℚ)) (Int.toNat_of_nonneg hfl0)
      rw [hcast]
      exact sub_nonneg.2 (Int.floor_le X)
    exact getD_le_interp _ hsorted _ _ hfr hilt

/-- A non-empty list all of whose entries are at most `b` has mean at
most `b`. -/
theorem npMeanQ_le_of_forall_le (l : List ℚ) (b : ℚ) (hl : l ≠ [])
    (hb : ∀ x ∈ l, x ≤ b) : npMeanQ l ≤ b := by
  have hlen : (0:ℚ) < l.length := by
    exact_mod_cast List.length_pos.2 hl
  have hsum : l.sum ≤ (l.length : ℚ) * b := by
    have h := List.sum_le_card_nsmul l b hb
    simpa [nsmul_eq_mul] using h
  rw [npMeanQ, div_le_iff hlen, mul_comm]
  exact hsum

/-- C10: for a non-empty return series and confidence level `q ∈ (0,1)`, the
VaR percentile is at least the minimum return, so the subset
`returns ≤ VaR` is non-empty (the empty-mean branch of CVaR is unreachable)
and CVaR, the mean over that subset, is at most VaR. -/
theorem C10_var_cvar (returns : List ℚ) (q : ℚ) (hne : returns ≠ [])
    (hq0 : 0 < q) (hq1 : q < 1) :
    (∃ x ∈ returns,
        x ≤ (MetricsCalculator.calculate_risk_metrics returns q).valueAtRisk) ∧
      returns.filter
          (fun r => r ≤ (MetricsCalculator.calculate_risk_metrics returns q).valueAtRisk) ≠
        [] ∧
      (MetricsCalculator.calculate_risk_metrics returns q).conditionalVaR ≤
        (MetricsCalculator.calculate_risk_metrics returns q).valueAtRisk := by
  simp only [MetricsCalculator.calculate_risk_metrics]
  obtain ⟨x, hx, hxle⟩ :=
    exists_le_npPercentileQ returns ((1 - q) * 100) hne (by linarith) (by linarith)
  have hxf : x ∈ returns.filter (fun r => r ≤ npPercentileQ returns ((1 - q) * 100)) :=
    List.mem_filter.2 ⟨hx, decide_eq_true hxle⟩
  refine ⟨⟨x, hx, hxle⟩, List.ne_nil_of_mem hxf, ?_⟩
  apply npMeanQ_le_of_forall_le _ _ (List.ne_nil_of_mem hxf)
  intro y hy
  exact of_decide_eq_true (List.mem_filter.1 hy).2

/-- Witness for C10 on `returns = [1, 2]`, `q = 1/2`. -/
theorem C10_var_cvar_witness :
    ([(1:ℚ), 2] ≠ []) ∧ (0:ℚ) < 1/2 ∧ (1:ℚ)/2 < 1 ∧
      ((∃ x ∈ [(1:ℚ), 2],
          x ≤ (MetricsCalculator.calculate_risk_metrics [1, 2] (1/2)).valueAtRisk) ∧
        ([(1:ℚ), 2].filter
            (fun r => r ≤ (MetricsCalculator.calculate_risk_metrics [1, 2] (1/2)).valueAtRisk)) ≠
          [] ∧
        (MetricsCalculator.calculate_risk_metrics [1, 2] (1/2)).conditionalVaR ≤
          (MetricsCalculator.calculate_risk_metrics [1, 2] (1/2)).valueAtRisk) :=
  ⟨by simp, by norm_num, by norm_num,
    C10_var_cvar [1, 2] (1/2) (by simp) (by norm_num) (by norm_num)⟩
